import Mathlib

/-!
# Verification of the pdf-renamer extraction and renaming core

Shallow embedding of `src/pdf_renamer/app.py`.  Documents are modelled at
the level the PDF library exposes them to the code under verification: a
document either fails to open (`PdfDoc.invalid`, the `except` branch of
`fitz.open`) or yields a list of pages, each of which either raises in
`get_text()` (`none`) or returns its text (`some s`).  The Python regular
expressions of the source are hand-compiled to recursive matchers over
`List Char`; wherever a greedy quantifier or an optional element is
determinized, a comment at the matcher justifies that no backtracking
alternative can succeed.  Character classes (`\s`, `\w`, `str.isalnum`)
are modelled on the ASCII range, which covers every string the claims
are about.
-/

/-- ASCII whitespace recognised by Python's regex `\s` and `str.strip`. -/
def isWs (c : Char) : Bool :=
  c = ' ' || c = '\t' || c = '\n' || c = '\r' || c = '\x0b' || c = '\x0c'

/-- Characters of the capture class `[A-Za-z0-9\-]`. -/
def isTokenChar (c : Char) : Bool := c.isAlphanum || c = '-'

/-- Word characters for the regex `\b` boundary (`[A-Za-z0-9_]`). -/
def isWordChar (c : Char) : Bool := c.isAlphanum || c = '_'

/-- Case-insensitive character comparison (`re.IGNORECASE` on ASCII). -/
def lowerEq (p c : Char) : Bool := p.toLower = c.toLower

/-- First-some choice on options (the order in which the source tries
its alternatives). -/
def oOr {α : Type} (a b : Option α) : Option α :=
  match a with
  | some v => some v
  | none => b

/-- Match a literal pattern case-insensitively at the head of the input,
returning the remaining input. -/
def matchLitCI : List Char → List Char → Option (List Char)
  | [], l => some l
  | _ :: _, [] => none
  | p :: ps, c :: cs => if lowerEq p c then matchLitCI ps cs else none

/-- Python `str.strip()`: remove leading and trailing whitespace. -/
def pyStrip (l : List Char) : List Char :=
  (((l.dropWhile isWs).reverse).dropWhile isWs).reverse

/-- Greedy capture of `([A-Za-z0-9\-]+)` at the head of the input.  The
group is the final element of every pattern that uses it, so the greedy
maximal run is exactly what the engine captures. -/
def captureToken (l : List Char) : Option (List Char) :=
  let tok := l.takeWhile isTokenChar
  if tok.isEmpty then none else some tok

/-- Branch `No\s*[:#]?\s*` of CUST_REGEX and INV_REGEX, followed by the
shared tail `\s*([A-Za-z0-9\-]+)` of the pattern.  Both `\s*` runs are
maximal: shortening them puts a whitespace character in front of `[:#]`
or of the capture class, neither of which accepts whitespace.  The
optional `[:#]` is taken when present: skipping a present `:` or `#`
cannot help, since neither `\s` nor the capture class accepts them. -/
def branchNo (l : List Char) : Option (List Char) :=
  match matchLitCI ['n', 'o'] l with
  | none => none
  | some r =>
    let r1 := r.dropWhile isWs
    let r2 := match r1 with
      | c :: cs => if c = ':' || c = '#' then cs else r1
      | [] => r1
    captureToken (r2.dropWhile isWs)

/-- Branch `Number\s*[:\s]*` followed by the tail `\s*([A-Za-z0-9\-]+)`.
The three consecutive quantifiers `\s*[:\s]*\s*` amount to one greedy
run over colons and whitespace: the capture class accepts neither, so a
shorter run cannot make the capture succeed. -/
def branchNumber (l : List Char) : Option (List Char) :=
  match matchLitCI ['n', 'u', 'm', 'b', 'e', 'r'] l with
  | none => none
  | some r => captureToken (r.dropWhile (fun c => c = ':' || isWs c))

/-- CUST_REGEX, app.py line 23:
`Customer\s*(?:No\s*[:#]?\s*|Number\s*[:\s]*)\s*([A-Za-z0-9\-]+)` with
IGNORECASE, tried at the head of the input; returns group(1).  The
alternation tries the `No` branch first, as Python does.  The `\s*`
after the label is one maximal run: both branches begin with a letter,
which `\s` never matches. -/
def custMatchAt (l : List Char) : Option (List Char) :=
  match matchLitCI ['c', 'u', 's', 't', 'o', 'm', 'e', 'r'] l with
  | none => none
  | some r =>
    let r1 := r.dropWhile isWs
    oOr (branchNo r1) (branchNumber r1)

/-- INV_REGEX, app.py line 24: as CUST_REGEX with label `Invoice`. -/
def invMatchAt (l : List Char) : Option (List Char) :=
  match matchLitCI ['i', 'n', 'v', 'o', 'i', 'c', 'e'] l with
  | none => none
  | some r =>
    let r1 := r.dropWhile isWs
    oOr (branchNo r1) (branchNumber r1)

/-- `re.search`: try the matcher at every position, leftmost first. -/
def searchCapture (f : List Char → Option (List Char)) : List Char → Option (List Char)
  | [] => f []
  | c :: cs => oOr (f (c :: cs)) (searchCapture f cs)

/-- `Order\s*Number\s*[:\s]*([A-Za-z0-9\-]+)` (app.py line 82) at the
head of the input; returns group(1).  Quantifier runs are maximal for
the reasons given at `branchNumber`. -/
def orderNumberMatchAt (l : List Char) : Option (List Char) :=
  match matchLitCI ['o', 'r', 'd', 'e', 'r'] l with
  | none => none
  | some r =>
    match matchLitCI ['n', 'u', 'm', 'b', 'e', 'r'] (r.dropWhile isWs) with
    | none => none
    | some r2 => captureToken (r2.dropWhile (fun c => c = ':' || isWs c))

/-- `Sales\s*Order\s*[:\s]*([A-Za-z0-9\-]+)` (app.py line 84) at the
head of the input; returns group(1). -/
def salesOrderMatchAt (l : List Char) : Option (List Char) :=
  match matchLitCI ['s', 'a', 'l', 'e', 's'] l with
  | none => none
  | some r =>
    match matchLitCI ['o', 'r', 'd', 'e', 'r'] (r.dropWhile isWs) with
    | none => none
    | some r2 => captureToken (r2.dropWhile (fun c => c = ':' || isWs c))

/-- `(?:SO|SV)[A-Za-z0-9]+\b` at the head of the input (the leading `\b`
of ORDER_FALLBACK_REGEX is checked by the caller); returns group(0).
The trailing `\b` fails exactly when the character after the maximal
alphanumeric run is `_`: an alphanumeric is impossible there by
maximality, and shortening the greedy run only puts two word characters
at the boundary. -/
def bareOrderAt (l : List Char) : Option (List Char) :=
  match l with
  | c1 :: c2 :: rest =>
    if lowerEq 's' c1 && (lowerEq 'o' c2 || lowerEq 'v' c2) then
      let run := rest.takeWhile Char.isAlphanum
      if run.isEmpty then none
      else
        match (rest.drop run.length).head? with
        | some d => if d = '_' then none else some (c1 :: c2 :: run)
        | none => some (c1 :: c2 :: run)
    else none
  | _ => none

/-- Search for ORDER_FALLBACK_REGEX (app.py line 26): at each position
check the leading `\b` (previous character absent or not a word
character) and try the token there; leftmost match wins. -/
def searchBare : Option Char → List Char → Option (List Char)
  | _, [] => none
  | prev, c :: cs =>
    let okBoundary := match prev with
      | none => true
      | some p => !isWordChar p
    oOr (if okBoundary then bareOrderAt (c :: cs) else none) (searchBare (some c) cs)

/-- `re.match(r"\s*Ship\s*To\b[\s:]*", line, re.IGNORECASE)` (app.py
line 92): on success return the rest of the line after the match end,
that is Python's `line[ship_match.end():]`.  All quantifier runs are
maximal: `Ship` and `To` begin with letters, the `\b` cannot be
repaired by shortening a `\s*`, and `[\s:]*` ends the pattern so the
match end is the maximal munch. -/
def shipLabelMatch (l : List Char) : Option (List Char) :=
  match matchLitCI ['s', 'h', 'i', 'p'] (l.dropWhile isWs) with
  | none => none
  | some r =>
    match matchLitCI ['t', 'o'] (r.dropWhile isWs) with
    | none => none
    | some r2 =>
      match r2 with
      | c :: _ =>
        if isWordChar c then none
        else some (r2.dropWhile (fun x => isWs x || x = ':'))
      | [] => some []

/-- Line-break characters of Python `str.splitlines` (besides the
two-character break `\r\n`, which is handled separately). -/
def isLineBreak (c : Char) : Bool :=
  c = '\n' || c = '\r' || c.toNat = 0x0b || c.toNat = 0x0c ||
  c.toNat = 0x1c || c.toNat = 0x1d || c.toNat = 0x1e ||
  c.toNat = 0x85 || c.toNat = 0x2028 || c.toNat = 0x2029

def splitlinesAux : List Char → List Char → List (List Char)
  | [], acc => if acc.isEmpty then [] else [acc.reverse]
  | '\r' :: '\n' :: cs, acc => acc.reverse :: splitlinesAux cs []
  | c :: cs, acc =>
    if isLineBreak c then acc.reverse :: splitlinesAux cs []
    else splitlinesAux cs (c :: acc)

/-- Python `str.splitlines` (no trailing empty line). -/
def splitlines (s : String) : List String :=
  (splitlinesAux s.data []).map String.mk

/-- A document as the code sees it: opening it either raises, or yields
pages whose `get_text()` either raises or returns text. -/
inductive PdfDoc : Type
  | invalid : PdfDoc
  | valid : List (Option String) → PdfDoc
  deriving DecidableEq

/-- Full text of a document: concatenation, in page order, of the text
of the pages whose `get_text()` did not raise (app.py lines 38-43). -/
def fullTextOf (pages : List (Option String)) : List Char :=
  ((pages.filterMap id).map String.data).flatten

/-- Line list of a document: `lines.extend(text.splitlines())` for each
page whose text is non-empty (app.py lines 72-79). -/
def linesOf (pages : List (Option String)) : List String :=
  ((pages.filterMap id).map (fun t => if t.isEmpty then [] else splitlines t)).flatten

/-- `m.group(...).strip() if m else None`: the post-processing the code
applies to every successful regex search. -/
def stripCapture : Option (List Char) → Option String
  | some g => some (String.mk (pyStrip g))
  | none => none

/-- `extract_customer_number_from_pdf_bytes` (app.py lines 31-45). -/
def extract_customer_number_from_pdf_bytes : PdfDoc → Option String
  | .invalid => none
  | .valid pages => stripCapture (searchCapture custMatchAt (fullTextOf pages))

/-- `extract_invoice_number_from_pdf_bytes` (app.py lines 47-61). -/
def extract_invoice_number_from_pdf_bytes : PdfDoc → Option String
  | .invalid => none
  | .valid pages => stripCapture (searchCapture invMatchAt (fullTextOf pages))

/-- Per-line label attempt, app.py lines 82-84: the "Order Number" rule,
then the "Sales Order" rule (tier 1 of the spec). -/
def lineLabelValue (line : String) : Option String :=
  oOr (stripCapture (searchCapture orderNumberMatchAt line.data))
      (stripCapture (searchCapture salesOrderMatchAt line.data))

/-- Per-line order-number attempt, app.py lines 81-90: the two label
rules first, then the bare SO/SV token rule on the same line. -/
def lineOrderValue (line : String) : Option String :=
  oOr (lineLabelValue line) (stripCapture (searchBare none line.data))

/-- First following line whose stripped content is non-empty, already
stripped (app.py lines 98-102). -/
def firstStrippedNonempty : List String → Option (List Char)
  | [] => none
  | l :: ls =>
    let t := pyStrip l.data
    if t.isEmpty then firstStrippedNonempty ls else some t

/-- Does `\s*\d` match at this position (some whitespace, then a digit)? -/
def wsDigitAt (l : List Char) : Bool :=
  match l.dropWhile isWs with
  | c :: _ => c.isDigit
  | [] => false

/-- `re.sub(r"\s*\d.*", "", candidate)` on a single line: delete from
the leftmost position where optional whitespace is followed by a digit,
to the end of the string (`.*` eats the rest, as the candidate contains
no newline). -/
def truncAtDigit : List Char → List Char
  | [] => []
  | c :: cs => if wsDigitAt (c :: cs) then [] else c :: truncAtDigit cs

/-- Ship-to value contributed by one line, given the lines after it
(app.py lines 91-106): trailing text after the label if non-empty,
otherwise the next non-blank line; then the digit truncation and a
final strip.  When even the lookahead candidate is empty the field
stays unset. -/
def shipValueOfLine (line : String) (rest : List String) : Option String :=
  match shipLabelMatch line.data with
  | none => none
  | some tail =>
    let after := pyStrip tail
    let candidate := if after.isEmpty then (firstStrippedNonempty rest).getD [] else after
    if candidate.isEmpty then none
    else some (String.mk (pyStrip (truncAtDigit candidate)))

/-- `if order_num is None:` update of the loop state for one line. -/
def updOrder (o : Option String) (line : String) : Option String :=
  match o with
  | some v => some v
  | none => lineOrderValue line

/-- `if ship_name is None:` update of the loop state for one line. -/
def updShip (s : Option String) (line : String) (rest : List String) : Option String :=
  match s with
  | some v => some v
  | none => shipValueOfLine line rest

/-- Main loop of `extract_sales_order_details_from_pdf_bytes` (app.py
lines 80-108), including the early break once both fields are set. -/
def soLoop : List String → Option String → Option String → Option String × Option String
  | [], o, s => (o, s)
  | line :: rest, o, s =>
    if (updOrder o line).isSome && (updShip s line rest).isSome
    then (updOrder o line, updShip s line rest)
    else soLoop rest (updOrder o line) (updShip s line rest)

/-- Whole-text fallback search for the order number (app.py lines
109-114). -/
def textOrderFallback (lines : List String) : Option String :=
  stripCapture (searchBare none (String.intercalate "\n" lines).data)

/-- `extract_sales_order_details_from_pdf_bytes` (app.py lines 63-115). -/
def extract_sales_order_details_from_pdf_bytes : PdfDoc → Option String × Option String
  | .invalid => (none, none)
  | .valid pages =>
    let lines := linesOf pages
    let os := soLoop lines none none
    (oOr os.1 (textOrderFallback lines), os.2)

/-- `sanitize_name` (app.py lines 117-119): the join of a generator that
keeps only alphanumerics, dash and underscore. -/
def sanitize_name (name : String) : String :=
  String.mk (name.data.foldr
    (fun c acc => if c.isAlphanum || c = '-' || c = '_' then c :: acc else acc) [])

/-- Split a character list on `/` (the posix path separator). -/
def splitSlash : List Char → List Char → List (List Char)
  | [], acc => [acc.reverse]
  | c :: cs, acc =>
    if c = '/' then acc.reverse :: splitSlash cs [] else splitSlash cs (c :: acc)

/-- Last path component (`pathlib.PurePosixPath(s).name`): empty and
`.` components do not count. -/
def pathName (s : String) : String :=
  String.mk (((splitSlash s.data []).filter
    (fun c => !c.isEmpty && c != ['.'])).getLast?.getD [])

/-- Final component without its suffix (`pathlib.PurePath.stem`):
`name[:i]` for `i = name.rfind('.')` when `0 < i < len(name) - 1`,
otherwise `name` unchanged.  Implemented from the right: `j` is the
distance of the last dot from the end. -/
def stemOfName (cs : List Char) : List Char :=
  let r := cs.reverse
  let j := (r.takeWhile (fun c => c != '.')).length
  if j = r.length then cs
  else if j = 0 then cs
  else if j = r.length - 1 then cs
  else (r.drop (j + 1)).reverse

/-- `Path(filename).stem`. -/
def pathStem (s : String) : String := String.mk (stemOfName (pathName s).data)

/-- Python truthiness of an optional string (`if cust_num:`). -/
def truthy : Option String → Bool
  | some s => !s.isEmpty
  | none => false

/-- Fallback name (app.py lines 146-147): sanitized stem of the original
filename (or of "file" when the filename is empty), plus ".pdf". -/
def fallbackName (filename : String) : String :=
  sanitize_name (pathStem (if filename.isEmpty then "file" else filename)) ++ ".pdf"

/-- Per-file naming of the `/upload` handler (app.py lines 140-148). -/
def uploadFileName (filename : String) (d : PdfDoc) : String :=
  let c := extract_customer_number_from_pdf_bytes d
  if truthy c then "CTI-" ++ c.getD "" ++ ".pdf" else fallbackName filename

/-- Per-file naming of the `/upload_invoice` handler (app.py 158-166). -/
def uploadInvoiceName (filename : String) (d : PdfDoc) : String :=
  let c := extract_invoice_number_from_pdf_bytes d
  if truthy c then "CTI-" ++ c.getD "" ++ ".pdf" else fallbackName filename

/-- Per-file naming of the `/upload_salesorder` handler (app.py
176-189), including the final sanitization of the proposed name. -/
def uploadSalesorderName (filename : String) (d : PdfDoc) : String :=
  let os := extract_sales_order_details_from_pdf_bytes d
  let proposed :=
    if truthy os.1 && truthy os.2 then
      "CTI Sales Order " ++ os.1.getD "" ++ " " ++ os.2.getD "" ++ ".pdf"
    else if truthy os.1 then "CTI Sales Order " ++ os.1.getD "" ++ ".pdf"
    else if truthy os.2 then "CTI Sales Order " ++ os.2.getD "" ++ ".pdf"
    else fallbackName filename
  sanitize_name proposed

/-- Batch of the `/upload` route: one (name, content) archive entry per
uploaded file, in input order, content unchanged (`zf.writestr`). -/
def upload_files (batch : List (String × PdfDoc)) : List (String × PdfDoc) :=
  batch.map (fun fd => (uploadFileName fd.1 fd.2, fd.2))

/-- Batch of the `/upload_invoice` route. -/
def upload_files_invoice (batch : List (String × PdfDoc)) : List (String × PdfDoc) :=
  batch.map (fun fd => (uploadInvoiceName fd.1 fd.2, fd.2))

/-- Batch of the `/upload_salesorder` route. -/
def upload_salesorder_files (batch : List (String × PdfDoc)) : List (String × PdfDoc) :=
  batch.map (fun fd => (uploadSalesorderName fd.1 fd.2, fd.2))

/-- Modelled from the spec: the sanitization rule of spec section 4.2
(retain alphanumerics, space, hyphen, underscore and period).  No such
function exists under src/, whose `sanitize_name` is stricter. -/
def sanitizeSpec (name : String) : String :=
  String.mk (name.data.filter
    (fun c => c.isAlphanum || c = ' ' || c = '-' || c = '_' || c = '.'))

/-- Modelled from the spec: no ByCustomerAndInvoice handler exists under
src/ (only /upload, /upload_invoice and /upload_salesorder do).  This
synthesizer follows the policy table of spec section 4.2, reusing the
repository's customer and invoice extraction, with the spec's
sanitization on synthesized names and the verbatim original filename as
fallback. -/
def byCustomerAndInvoiceName (filename : String) (d : PdfDoc) : String :=
  match extract_customer_number_from_pdf_bytes d,
        extract_invoice_number_from_pdf_bytes d with
  | some c, some i => sanitizeSpec ("CTI-" ++ c ++ "-" ++ i ++ ".pdf")
  | some c, none => sanitizeSpec ("CTI-" ++ c ++ ".pdf")
  | none, some i => sanitizeSpec ("CTI-" ++ i ++ ".pdf")
  | none, none => filename

/-- First hit of a per-element partial function, in list order. -/
def firstSomeMap {α β : Type} (f : α → Option β) : List α → Option β
  | [] => none
  | a :: as => oOr (f a) (firstSomeMap f as)

/-- Ship-to scan as a stand-alone pass: first line contributing a value
wins.  Proved below to agree with the interleaved loop of the source. -/
def shipScan : List String → Option String
  | [] => none
  | line :: rest => oOr (shipValueOfLine line rest) (shipScan rest)

/-- Filenames illegal on common filesystems, as listed by the spec. -/
def illegalChars : List Char := ['<', '>', ':', '"', '/', '\\', '|', '?', '*']

/-- One-page document carrying both a customer and an invoice label. -/
def c3DocBoth : PdfDoc := .valid [some "Customer Number: ABC123\nInvoice Number: 9988"]

/-- One-page document carrying only an invoice label. -/
def c3DocInv : PdfDoc := .valid [some "Invoice Number: 9988"]

/-- One-page document with a bare SO token on the line before an
"Order Number" label line. -/
def c4Doc : PdfDoc := .valid [some "see SO123456 enclosed\nOrder Number: 777"]

/-- Batch of two documents that resolve to the same customer number. -/
def c9Batch : List (String × PdfDoc) :=
  [("a.txt", .valid [some "Customer Number: ABC123"]),
   ("b.txt", .valid [some "Customer Number: ABC123"])]

/-! ## Basic lemmas about the model -/

theorem oOr_some {α : Type} (v : α) (b : Option α) : oOr (some v) b = some v := rfl

theorem oOr_none {α : Type} (b : Option α) : oOr none b = b := rfl

/-- The generator comprehension of `sanitize_name` is a filter. -/
theorem sanitize_name_data (s : String) :
    (sanitize_name s).data =
      s.data.filter (fun c => c.isAlphanum || c = '-' || c = '_') := by
  show s.data.foldr _ [] = _
  induction s.data with
  | nil => rfl
  | cons a l ih =>
    simp only [List.foldr_cons, ih, List.filter_cons]

theorem sanitize_name_append (a b : String) :
    sanitize_name (a ++ b) = sanitize_name a ++ sanitize_name b := by
  apply String.ext
  simp only [sanitize_name_data, String.data_append, List.filter_append]

theorem string_ne_empty_of_data {s : String} (h : s.data ≠ []) : s ≠ "" :=
  fun he => h (by rw [he])

/-- Characters surviving strip are characters of the input. -/
theorem pyStrip_subset {l : List Char} : ∀ c ∈ pyStrip l, c ∈ l := by
  intro c hc
  unfold pyStrip at hc
  rw [List.mem_reverse] at hc
  have h1 := (List.dropWhile_sublist (l := (l.dropWhile isWs).reverse) isWs).subset hc
  rw [List.mem_reverse] at h1
  exact (List.dropWhile_sublist isWs).subset h1

/-- A non-whitespace character of the input survives strip. -/
theorem pyStrip_ne_nil_of {l : List Char} {c : Char} (hc : c ∈ l)
    (hw : isWs c = false) : pyStrip l ≠ [] := by
  intro h
  unfold pyStrip at h
  rw [List.reverse_eq_nil_iff, List.dropWhile_eq_nil_iff] at h
  have h2 : c ∈ l.dropWhile isWs := by
    have hsplit : c ∈ l.takeWhile isWs ++ l.dropWhile isWs := by
      rw [List.takeWhile_append_dropWhile]; exact hc
    rcases List.mem_append.mp hsplit with h' | h'
    · exact absurd (List.mem_takeWhile_imp h') (by simp [hw])
    · exact h'
  exact absurd (h c (List.mem_reverse.mpr h2)) (by simp [hw])

theorem pyStrip_eq_self {l : List Char} (h : ∀ c ∈ l, isWs c = false) :
    pyStrip l = l := by
  unfold pyStrip
  have d1 : l.dropWhile isWs = l := by
    cases l with
    | nil => rfl
    | cons a t => rw [List.dropWhile_cons_of_neg]; simp [h a (by simp)]
  rw [d1]
  have d2 : l.reverse.dropWhile isWs = l.reverse := by
    cases hr : l.reverse with
    | nil => rfl
    | cons a t =>
      rw [List.dropWhile_cons_of_neg]
      have ha : a ∈ l := by
        rw [← List.mem_reverse, hr]; exact List.mem_cons_self a t
      simp [h a ha]
  rw [d2, List.reverse_reverse]

/-! ## Character-class facts -/

theorem tokenChar_not_ws {c : Char} (h : isTokenChar c = true) : isWs c = false := by
  by_contra hw
  rw [Bool.not_eq_false] at hw
  simp only [isWs, Bool.or_eq_true, decide_eq_true_eq] at hw
  rcases hw with ((((h1 | h1) | h1) | h1) | h1) | h1 <;>
    (subst h1; exact absurd h (by decide))

theorem alnum_not_ws {c : Char} (h : c.isAlphanum = true) : isWs c = false :=
  tokenChar_not_ws (by simp [isTokenChar, h])

theorem tokenChar_not_illegal {c : Char} (h : isTokenChar c = true) :
    c ∉ illegalChars := by
  intro hmem
  simp only [illegalChars, List.mem_cons, List.not_mem_nil, or_false] at hmem
  rcases hmem with h1 | h1 | h1 | h1 | h1 | h1 | h1 | h1 | h1 <;>
    (subst h1; exact absurd h (by decide))

theorem sanitizeAllowed_not_illegal {c : Char}
    (h : (c.isAlphanum || c = '-' || c = '_') = true) : c ∉ illegalChars := by
  intro hmem
  simp only [illegalChars, List.mem_cons, List.not_mem_nil, or_false] at hmem
  rcases hmem with h1 | h1 | h1 | h1 | h1 | h1 | h1 | h1 | h1 <;>
    (subst h1; exact absurd h (by decide))

/-! ## Shape of matcher results -/

theorem captureToken_some {l g : List Char} (h : captureToken l = some g) :
    g ≠ [] ∧ ∀ c ∈ g, isTokenChar c := by
  unfold captureToken at h
  by_cases he : (l.takeWhile isTokenChar).isEmpty
  · simp [he] at h
  · simp only [he, if_false] at h
    cases h
    exact ⟨by simpa [List.isEmpty_iff] using he,
      fun c hc => List.mem_takeWhile_imp hc⟩

theorem branchNo_some {l g : List Char} (h : branchNo l = some g) :
    g ≠ [] ∧ ∀ c ∈ g, isTokenChar c := by
  unfold branchNo at h
  cases hm : matchLitCI ['n', 'o'] l with
  | none => rw [hm] at h; exact absurd h (by simp)
  | some r => rw [hm] at h; exact captureToken_some h

theorem branchNumber_some {l g : List Char} (h : branchNumber l = some g) :
    g ≠ [] ∧ ∀ c ∈ g, isTokenChar c := by
  unfold branchNumber at h
  cases hm : matchLitCI ['n', 'u', 'm', 'b', 'e', 'r'] l with
  | none => rw [hm] at h; exact absurd h (by simp)
  | some r => rw [hm] at h; exact captureToken_some h

theorem custMatchAt_some {l g : List Char} (h : custMatchAt l = some g) :
    g ≠ [] ∧ ∀ c ∈ g, isTokenChar c := by
  unfold custMatchAt at h
  cases hm : matchLitCI ['c', 'u', 's', 't', 'o', 'm', 'e', 'r'] l with
  | none => rw [hm] at h; exact absurd h (by simp)
  | some r =>
    rw [hm] at h
    have h' : oOr (branchNo (r.dropWhile isWs)) (branchNumber (r.dropWhile isWs))
        = some g := h
    cases hb : branchNo (r.dropWhile isWs) with
    | some g' =>
      rw [hb, oOr_some] at h'
      cases h'
      exact branchNo_some hb
    | none =>
      rw [hb, oOr_none] at h'
      exact branchNumber_some h'

theorem invMatchAt_some {l g : List Char} (h : invMatchAt l = some g) :
    g ≠ [] ∧ ∀ c ∈ g, isTokenChar c := by
  unfold invMatchAt at h
  cases hm : matchLitCI ['i', 'n', 'v', 'o', 'i', 'c', 'e'] l with
  | none => rw [hm] at h; exact absurd h (by simp)
  | some r =>
    rw [hm] at h
    have h' : oOr (branchNo (r.dropWhile isWs)) (branchNumber (r.dropWhile isWs))
        = some g := h
    cases hb : branchNo (r.dropWhile isWs) with
    | some g' =>
      rw [hb, oOr_some] at h'
      cases h'
      exact branchNo_some hb
    | none =>
      rw [hb, oOr_none] at h'
      exact branchNumber_some h'

theorem orderNumberMatchAt_some {l g : List Char} (h : orderNumberMatchAt l = some g) :
    g ≠ [] ∧ ∀ c ∈ g, isTokenChar c := by
  unfold orderNumberMatchAt at h
  split at h
  · exact absurd h (by simp)
  · split at h
    · exact absurd h (by simp)
    · exact captureToken_some h

theorem salesOrderMatchAt_some {l g : List Char} (h : salesOrderMatchAt l = some g) :
    g ≠ [] ∧ ∀ c ∈ g, isTokenChar c := by
  unfold salesOrderMatchAt at h
  split at h
  · exact absurd h (by simp)
  · split at h
    · exact absurd h (by simp)
    · exact captureToken_some h

/-- A bare SO/SV token contains a non-whitespace character (one of the
alphanumerics of its mandatory tail). -/
theorem bareOrderAt_some {l g : List Char} (h : bareOrderAt l = some g) :
    ∃ c ∈ g, isWs c = false := by
  unfold bareOrderAt at h
  cases l with
  | nil => exact absurd h (by simp)
  | cons c1 t =>
    cases t with
    | nil => exact absurd h (by simp)
    | cons c2 rest =>
      by_cases hp : (lowerEq 's' c1 && (lowerEq 'o' c2 || lowerEq 'v' c2)) = true
      · simp only [hp, if_true] at h
        by_cases hr : (rest.takeWhile Char.isAlphanum).isEmpty
        · simp [hr] at h
        · simp only [hr, if_false] at h
          have hrun : rest.takeWhile Char.isAlphanum ≠ [] := by
            simpa [List.isEmpty_iff] using hr
          obtain ⟨a, ha⟩ := List.exists_mem_of_ne_nil _ hrun
          have hg : a ∈ g := by
            cases hh : (rest.drop (rest.takeWhile Char.isAlphanum).length).head? with
            | some d =>
              rw [hh] at h
              by_cases hd : d = '_'
              · simp [hd] at h
              · simp only [hd, if_false] at h
                cases h
                exact List.mem_cons_of_mem _ (List.mem_cons_of_mem _ ha)
            | none =>
              rw [hh] at h
              cases h
              exact List.mem_cons_of_mem _ (List.mem_cons_of_mem _ ha)
          exact ⟨a, hg, alnum_not_ws (List.mem_takeWhile_imp ha)⟩
      · simp [hp] at h

/-- Any property of every hit of the matcher holds of a search result. -/
theorem searchCapture_prop {P : List Char → Prop} {f : List Char → Option (List Char)}
    (hf : ∀ l g, f l = some g → P g) :
    ∀ {l g}, searchCapture f l = some g → P g := by
  intro l
  induction l with
  | nil => exact fun h => hf [] _ h
  | cons c cs ih =>
    intro g h
    rw [searchCapture] at h
    cases hc : f (c :: cs) with
    | some v =>
      rw [hc, oOr_some] at h
      cases h
      exact hf _ _ hc
    | none =>
      rw [hc, oOr_none] at h
      exact ih h

theorem searchBare_prop {P : List Char → Prop}
    (hb : ∀ l g, bareOrderAt l = some g → P g) :
    ∀ {prev l g}, searchBare prev l = some g → P g := by
  intro prev l
  induction l generalizing prev with
  | nil => intro g h; exact absurd h (by simp [searchBare])
  | cons c cs ih =>
    intro g h
    cases prev with
    | none =>
      have h' : oOr (bareOrderAt (c :: cs)) (searchBare (some c) cs) = some g := h
      cases hc : bareOrderAt (c :: cs) with
      | some v =>
        rw [hc, oOr_some] at h'
        cases h'
        exact hb _ _ hc
      | none =>
        rw [hc, oOr_none] at h'
        exact ih h'
    | some p =>
      have h' : oOr (if !isWordChar p then bareOrderAt (c :: cs) else none)
          (searchBare (some c) cs) = some g := h
      by_cases hw : isWordChar p = true
      · simp only [hw, Bool.not_true, Bool.false_eq_true, if_false, oOr_none] at h'
        exact ih h'
      · have hw' : isWordChar p = false := by simpa using hw
        simp only [hw', Bool.not_false, if_true] at h'
        cases hc : bareOrderAt (c :: cs) with
        | some v =>
          rw [hc, oOr_some] at h'
          cases h'
          exact hb _ _ hc
        | none =>
          rw [hc, oOr_none] at h'
          exact ih h'

theorem firstSomeMap_prop {α β : Type} {P : β → Prop} {f : α → Option β}
    (hf : ∀ a v, f a = some v → P v) :
    ∀ {l v}, firstSomeMap f l = some v → P v := by
  intro l
  induction l with
  | nil => intro v h; exact absurd h (by simp [firstSomeMap])
  | cons a as ih =>
    intro v h
    rw [firstSomeMap] at h
    cases ha : f a with
    | some w =>
      rw [ha, oOr_some] at h
      cases h
      exact hf _ _ ha
    | none =>
      rw [ha, oOr_none] at h
      exact ih h

/-! ## Properties of extraction results -/

theorem stripCapture_eq_some {o : Option (List Char)} {v : String}
    (h : stripCapture o = some v) : ∃ g, o = some g ∧ v = String.mk (pyStrip g) := by
  cases o with
  | none => exact absurd h (by simp [stripCapture])
  | some g =>
    refine ⟨g, rfl, ?_⟩
    have h' : some (String.mk (pyStrip g)) = some v := h
    cases h'
    rfl

theorem strip_token_props {g : List Char} (h1 : g ≠ [])
    (h2 : ∀ c ∈ g, isTokenChar c) :
    pyStrip g ≠ [] ∧ ∀ c ∈ pyStrip g, isTokenChar c := by
  constructor
  · obtain ⟨c, hc⟩ := List.exists_mem_of_ne_nil _ h1
    exact pyStrip_ne_nil_of hc (tokenChar_not_ws (h2 c hc))
  · exact fun c hc => h2 c (pyStrip_subset c hc)

/-- A found customer number is a non-empty string of letters, digits and
hyphens. -/
theorem extract_customer_props {d : PdfDoc} {v : String}
    (h : extract_customer_number_from_pdf_bytes d = some v) :
    v.data ≠ [] ∧ ∀ c ∈ v.data, isTokenChar c := by
  cases d with
  | invalid => exact absurd h (by simp [extract_customer_number_from_pdf_bytes])
  | valid pages =>
    unfold extract_customer_number_from_pdf_bytes at h
    obtain ⟨g, hg, rfl⟩ := stripCapture_eq_some h
    have hp := searchCapture_prop
      (P := fun g => g ≠ [] ∧ ∀ c ∈ g, isTokenChar c)
      (fun _ _ hl => custMatchAt_some hl) hg
    exact strip_token_props hp.1 hp.2

/-- A found invoice number is a non-empty string of letters, digits and
hyphens. -/
theorem extract_invoice_props {d : PdfDoc} {v : String}
    (h : extract_invoice_number_from_pdf_bytes d = some v) :
    v.data ≠ [] ∧ ∀ c ∈ v.data, isTokenChar c := by
  cases d with
  | invalid => exact absurd h (by simp [extract_invoice_number_from_pdf_bytes])
  | valid pages =>
    unfold extract_invoice_number_from_pdf_bytes at h
    obtain ⟨g, hg, rfl⟩ := stripCapture_eq_some h
    have hp := searchCapture_prop
      (P := fun g => g ≠ [] ∧ ∀ c ∈ g, isTokenChar c)
      (fun _ _ hl => invMatchAt_some hl) hg
    exact strip_token_props hp.1 hp.2

/-- A tier-1 label value on a line is non-empty. -/
theorem lineLabelValue_props {line : String} {v : String}
    (h : lineLabelValue line = some v) :
    v.data ≠ [] ∧ ∀ c ∈ v.data, isTokenChar c := by
  unfold lineLabelValue at h
  cases hz : stripCapture (searchCapture orderNumberMatchAt line.data) with
  | some w =>
    rw [hz, oOr_some] at h
    cases h
    obtain ⟨g, hg, rfl⟩ := stripCapture_eq_some hz
    have hp := searchCapture_prop
      (P := fun g => g ≠ [] ∧ ∀ c ∈ g, isTokenChar c)
      (fun _ _ hl => orderNumberMatchAt_some hl) hg
    exact strip_token_props hp.1 hp.2
  | none =>
    rw [hz, oOr_none] at h
    obtain ⟨g, hg, rfl⟩ := stripCapture_eq_some h
    have hp := searchCapture_prop
      (P := fun g => g ≠ [] ∧ ∀ c ∈ g, isTokenChar c)
      (fun _ _ hl => salesOrderMatchAt_some hl) hg
    exact strip_token_props hp.1 hp.2

/-- Any per-line order value is non-empty. -/
theorem lineOrderValue_ne_nil {line : String} {v : String}
    (h : lineOrderValue line = some v) : v.data ≠ [] := by
  unfold lineOrderValue at h
  cases hz : lineLabelValue line with
  | some w =>
    rw [hz, oOr_some] at h
    cases h
    exact (lineLabelValue_props hz).1
  | none =>
    rw [hz, oOr_none] at h
    obtain ⟨g, hg, rfl⟩ := stripCapture_eq_some h
    obtain ⟨c, hc, hw⟩ := searchBare_prop
      (P := fun g => ∃ c ∈ g, isWs c = false)
      (fun _ _ hl => bareOrderAt_some hl) hg
    exact pyStrip_ne_nil_of hc hw

/-- The whole-text fallback order value is non-empty. -/
theorem textOrderFallback_ne_nil {lines : List String} {v : String}
    (h : textOrderFallback lines = some v) : v.data ≠ [] := by
  unfold textOrderFallback at h
  obtain ⟨g, hg, rfl⟩ := stripCapture_eq_some h
  obtain ⟨c, hc, hw⟩ := searchBare_prop
    (P := fun g => ∃ c ∈ g, isWs c = false)
    (fun _ _ hl => bareOrderAt_some hl) hg
  exact pyStrip_ne_nil_of hc hw

/-! ## Structure of the sales-order loop -/

theorem updOrder_some (v : String) (line : String) :
    updOrder (some v) line = some v := rfl

theorem updOrder_none (line : String) : updOrder none line = lineOrderValue line := rfl

theorem updShip_some (v : String) (line : String) (rest : List String) :
    updShip (some v) line rest = some v := rfl

theorem updShip_none (line : String) (rest : List String) :
    updShip none line rest = shipValueOfLine line rest := rfl

/-- Once the order number is set, the loop never changes it. -/
theorem soLoop_fst_some (lines : List String) (v : String) :
    ∀ s, (soLoop lines (some v) s).1 = some v := by
  induction lines with
  | nil => intro s; rfl
  | cons line rest ih =>
    intro s
    rw [soLoop, updOrder_some]
    split
    · rfl
    · exact ih _

/-- Once the ship-to name is set, the loop never changes it. -/
theorem soLoop_snd_some (lines : List String) (v : String) :
    ∀ o, (soLoop lines o (some v)).2 = some v := by
  induction lines with
  | nil => intro o; rfl
  | cons line rest ih =>
    intro o
    rw [soLoop, updShip_some]
    split
    · rfl
    · exact ih _

/-- The order component of the loop is the first per-line hit, whatever
the ship-to state. -/
theorem soLoop_fst (lines : List String) :
    ∀ s, (soLoop lines none s).1 = firstSomeMap lineOrderValue lines := by
  induction lines with
  | nil => intro s; rfl
  | cons line rest ih =>
    intro s
    rw [soLoop, updOrder_none, firstSomeMap]
    cases ho : lineOrderValue line with
    | some v =>
      rw [oOr_some]
      split
      · rfl
      · exact soLoop_fst_some rest v _
    | none =>
      rw [oOr_none]
      simp only [Option.isSome_none, Bool.false_and, if_false]
      exact ih _
    

/-- The ship component of the loop is the first per-line hit, whatever
the order state. -/
theorem soLoop_snd (lines : List String) :
    ∀ o, (soLoop lines o none).2 = shipScan lines := by
  induction lines with
  | nil => intro o; rfl
  | cons line rest ih =>
    intro o
    rw [soLoop, updShip_none, shipScan]
    cases hs : shipValueOfLine line rest with
    | some v =>
      rw [oOr_some]
      split
      · rfl
      · exact soLoop_snd_some rest v _
    | none =>
      rw [oOr_none]
      simp only [Option.isSome_none, Bool.and_false, if_false]
      exact ih _

/-- Order extraction factored: first per-line hit, then the whole-text
fallback. -/
theorem extract_so_fst (pages : List (Option String)) :
    (extract_sales_order_details_from_pdf_bytes (.valid pages)).1 =
      oOr (firstSomeMap lineOrderValue (linesOf pages))
          (textOrderFallback (linesOf pages)) := by
  show oOr (soLoop (linesOf pages) none none).1 (textOrderFallback (linesOf pages)) = _
  rw [soLoop_fst]

/-- Ship-to extraction factored: the first line contributing a value. -/
theorem extract_so_snd (pages : List (Option String)) :
    (extract_sales_order_details_from_pdf_bytes (.valid pages)).2 =
      shipScan (linesOf pages) := by
  show (soLoop (linesOf pages) none none).2 = _
  rw [soLoop_snd]

/-- A found order number is never the empty string. -/
theorem extract_so_order_ne_nil {d : PdfDoc} {v : String}
    (h : (extract_sales_order_details_from_pdf_bytes d).1 = some v) :
    v.data ≠ [] := by
  cases d with
  | invalid => exact absurd h (by simp [extract_sales_order_details_from_pdf_bytes])
  | valid pages =>
    rw [extract_so_fst] at h
    cases hf : firstSomeMap lineOrderValue (linesOf pages) with
    | some w =>
      rw [hf, oOr_some] at h
      cases h
      exact firstSomeMap_prop (P := fun v => v.data ≠ [])
        (fun _ _ ha => lineOrderValue_ne_nil ha) hf
    | none =>
      rw [hf, oOr_none] at h
      exact textOrderFallback_ne_nil h

/-! ## Locating a concrete customer label in surrounding text -/

/-- If no match starts inside the prefix, the search continues past it. -/
theorem searchCapture_append_none (f : List Char → Option (List Char)) :
    ∀ (pre rest : List Char),
      (∀ i, i < pre.length → f (List.drop i (pre ++ rest)) = none) →
      searchCapture f (pre ++ rest) = searchCapture f rest := by
  intro pre
  induction pre with
  | nil => intro rest _; rfl
  | cons a pre ih =>
    intro rest h
    have h0 : f (a :: (pre ++ rest)) = none := by
      have := h 0 (by simp)
      simpa using this
    show oOr (f (a :: (pre ++ rest))) (searchCapture f (pre ++ rest)) = _
    rw [h0, oOr_none]
    exact ih rest (fun i hi => by
      have := h (i + 1) (by simpa using Nat.succ_lt_succ hi)
      simpa [List.drop_succ_cons] using this)

/-- CUST_REGEX matches at the head of `"Customer Number: ABC123" ++ post`,
capturing `ABC123` extended by any token characters that follow. -/
theorem searchCust_mid (post : List Char) :
    searchCapture custMatchAt ("Customer Number: ABC123".data ++ post) =
      some ('A' :: 'B' :: 'C' :: '1' :: '2' :: '3' :: post.takeWhile isTokenChar) := rfl

theorem fullTextOf_singleton (s : String) : fullTextOf [some s] = s.data := by
  simp [fullTextOf]

/-- Customer extraction on a one-page document whose text is
`pre ++ "Customer Number: ABC123" ++ post`, when no match starts in
`pre` and `post` does not begin with a token character. -/
theorem extract_customer_mid (pre post : List Char)
    (hpre : ∀ i, i < pre.length →
      custMatchAt (List.drop i (pre ++ ("Customer Number: ABC123".data ++ post))) = none)
    (hpost : List.takeWhile isTokenChar post = []) :
    extract_customer_number_from_pdf_bytes
      (.valid [some (String.mk (pre ++ ("Customer Number: ABC123".data ++ post)))]) =
      some "ABC123" := by
  show stripCapture (searchCapture custMatchAt
    (fullTextOf [some (String.mk (pre ++ ("Customer Number: ABC123".data ++ post)))])) = _
  rw [fullTextOf_singleton]
  rw [searchCapture_append_none custMatchAt pre _ hpre, searchCust_mid, hpost]
  rfl

/-! ## Safety of synthesized names -/

theorem cti_name_props {v : String} (_hne : v.data ≠ [])
    (hok : ∀ c ∈ v.data, isTokenChar c) :
    ("CTI-" ++ v ++ ".pdf").data ≠ [] ∧
      ∀ c ∈ ("CTI-" ++ v ++ ".pdf").data, c ∉ illegalChars := by
  constructor
  · exact fun h => List.cons_ne_nil 'C' _ (by exact h)
  · intro c hc
    rw [String.data_append, String.data_append] at hc
    rcases List.mem_append.mp hc with h1 | h1
    · rcases List.mem_append.mp h1 with h2 | h2
      · have h2' : c ∈ ['C', 'T', 'I', '-'] := h2
        fin_cases h2' <;> decide
      · exact tokenChar_not_illegal (hok c h2)
    · have h1' : c ∈ ['.', 'p', 'd', 'f'] := h1
      fin_cases h1' <;> decide

theorem sanitize_chars_not_illegal {s : String} :
    ∀ c ∈ (sanitize_name s).data, c ∉ illegalChars := by
  intro c hc
  rw [sanitize_name_data] at hc
  exact sanitizeAllowed_not_illegal (List.mem_filter.mp hc).2

theorem fallbackName_props (f : String) :
    (fallbackName f).data ≠ [] ∧ ∀ c ∈ (fallbackName f).data, c ∉ illegalChars := by
  unfold fallbackName
  constructor
  · intro h
    rw [String.data_append] at h
    rcases List.append_eq_nil.mp h with ⟨_, h2⟩
    exact absurd h2 (by decide)
  · intro c hc
    rw [String.data_append] at hc
    rcases List.mem_append.mp hc with h1 | h1
    · exact sanitize_chars_not_illegal c h1
    · have h1' : c ∈ ['.', 'p', 'd', 'f'] := h1
      fin_cases h1' <;> decide

theorem sanitize_pdf_suffix_props (s : String) :
    (sanitize_name (s ++ ".pdf")).data ≠ [] ∧
      ∀ c ∈ (sanitize_name (s ++ ".pdf")).data, c ∉ illegalChars := by
  constructor
  · rw [sanitize_name_append, show sanitize_name ".pdf" = "pdf" by decide]
    intro h
    rw [String.data_append] at h
    rcases List.append_eq_nil.mp h with ⟨_, h2⟩
    exact absurd h2 (by decide)
  · exact sanitize_chars_not_illegal

/-- Per-file safety for the `/upload` naming. -/
theorem uploadFileName_props (f : String) (d : PdfDoc) :
    (uploadFileName f d).data ≠ [] ∧
      ∀ c ∈ (uploadFileName f d).data, c ∉ illegalChars := by
  have he : uploadFileName f d =
      if truthy (extract_customer_number_from_pdf_bytes d) then
        "CTI-" ++ (extract_customer_number_from_pdf_bytes d).getD "" ++ ".pdf"
      else fallbackName f := rfl
  rw [he]
  cases hx : extract_customer_number_from_pdf_bytes d with
  | none => simpa [truthy] using fallbackName_props f
  | some v =>
    by_cases hv : v.isEmpty = true
    · simpa [truthy, hv] using fallbackName_props f
    · have hv' : v.isEmpty = false := by simpa using hv
      have hp := extract_customer_props hx
      simpa [truthy, hv'] using cti_name_props hp.1 hp.2

/-- Per-file safety for the `/upload_invoice` naming. -/
theorem uploadInvoiceName_props (f : String) (d : PdfDoc) :
    (uploadInvoiceName f d).data ≠ [] ∧
      ∀ c ∈ (uploadInvoiceName f d).data, c ∉ illegalChars := by
  have he : uploadInvoiceName f d =
      if truthy (extract_invoice_number_from_pdf_bytes d) then
        "CTI-" ++ (extract_invoice_number_from_pdf_bytes d).getD "" ++ ".pdf"
      else fallbackName f := rfl
  rw [he]
  cases hx : extract_invoice_number_from_pdf_bytes d with
  | none => simpa [truthy] using fallbackName_props f
  | some v =>
    by_cases hv : v.isEmpty = true
    · simpa [truthy, hv] using fallbackName_props f
    · have hv' : v.isEmpty = false := by simpa using hv
      have hp := extract_invoice_props hx
      simpa [truthy, hv'] using cti_name_props hp.1 hp.2

/-- Per-file safety for the `/upload_salesorder` naming: every branch is
a sanitized string ending in ".pdf" before sanitization. -/
theorem uploadSalesorderName_props (f : String) (d : PdfDoc) :
    (uploadSalesorderName f d).data ≠ [] ∧
      ∀ c ∈ (uploadSalesorderName f d).data, c ∉ illegalChars := by
  have he : uploadSalesorderName f d = sanitize_name (
      if truthy (extract_sales_order_details_from_pdf_bytes d).1 &&
          truthy (extract_sales_order_details_from_pdf_bytes d).2 then
        "CTI Sales Order " ++ (extract_sales_order_details_from_pdf_bytes d).1.getD "" ++
          " " ++ (extract_sales_order_details_from_pdf_bytes d).2.getD "" ++ ".pdf"
      else if truthy (extract_sales_order_details_from_pdf_bytes d).1 then
        "CTI Sales Order " ++ (extract_sales_order_details_from_pdf_bytes d).1.getD "" ++ ".pdf"
      else if truthy (extract_sales_order_details_from_pdf_bytes d).2 then
        "CTI Sales Order " ++ (extract_sales_order_details_from_pdf_bytes d).2.getD "" ++ ".pdf"
      else fallbackName f) := rfl
  rw [he]
  split
  · exact sanitize_pdf_suffix_props _
  · split
    · exact sanitize_pdf_suffix_props _
    · split
      · exact sanitize_pdf_suffix_props _
      · exact sanitize_pdf_suffix_props
          (sanitize_name (pathStem (if f.isEmpty then "file" else f)))

/-! ## The spec-modelled combined policy -/

theorem sanitizeSpec_eq_self {s : String}
    (h : ∀ c ∈ s.data,
      (c.isAlphanum || c = ' ' || c = '-' || c = '_' || c = '.') = true) :
    sanitizeSpec s = s := by
  apply String.ext
  show s.data.filter _ = s.data
  exact List.filter_eq_self.mpr h

theorem tokenChar_specAllowed {c : Char} (h : isTokenChar c = true) :
    (c.isAlphanum || c = ' ' || c = '-' || c = '_' || c = '.') = true := by
  simp only [isTokenChar, Bool.or_eq_true, decide_eq_true_eq] at h
  rcases h with h | h
  · simp [h]
  · subst h; decide

/-- Both fields found: the combined policy synthesizes the full name,
and the spec sanitization leaves it unchanged. -/
theorem byCustInv_both {f : String} {d : PdfDoc} {c i : String}
    (hc : extract_customer_number_from_pdf_bytes d = some c)
    (hi : extract_invoice_number_from_pdf_bytes d = some i) :
    byCustomerAndInvoiceName f d = "CTI-" ++ c ++ "-" ++ i ++ ".pdf" := by
  unfold byCustomerAndInvoiceName
  rw [hc, hi]
  apply sanitizeSpec_eq_self
  intro ch hch
  simp only [String.data_append, List.mem_append] at hch
  rcases hch with ((((h1 | h1) | h1) | h1) | h1)
  · have h1' : ch ∈ ['C', 'T', 'I', '-'] := h1
    fin_cases h1' <;> decide
  · exact tokenChar_specAllowed ((extract_customer_props hc).2 ch h1)
  · have h1' : ch ∈ ['-'] := h1
    fin_cases h1'
    decide
  · exact tokenChar_specAllowed ((extract_invoice_props hi).2 ch h1)
  · have h1' : ch ∈ ['.', 'p', 'd', 'f'] := h1
    fin_cases h1' <;> decide

/-- Only the customer number found. -/
theorem byCustInv_custOnly {f : String} {d : PdfDoc} {c : String}
    (hc : extract_customer_number_from_pdf_bytes d = some c)
    (hi : extract_invoice_number_from_pdf_bytes d = none) :
    byCustomerAndInvoiceName f d = "CTI-" ++ c ++ ".pdf" := by
  unfold byCustomerAndInvoiceName
  rw [hc, hi]
  apply sanitizeSpec_eq_self
  intro ch hch
  simp only [String.data_append, List.mem_append] at hch
  rcases hch with ((h1 | h1) | h1)
  · have h1' : ch ∈ ['C', 'T', 'I', '-'] := h1
    fin_cases h1' <;> decide
  · exact tokenChar_specAllowed ((extract_customer_props hc).2 ch h1)
  · have h1' : ch ∈ ['.', 'p', 'd', 'f'] := h1
    fin_cases h1' <;> decide

/-- Only the invoice number found. -/
theorem byCustInv_invOnly {f : String} {d : PdfDoc} {i : String}
    (hc : extract_customer_number_from_pdf_bytes d = none)
    (hi : extract_invoice_number_from_pdf_bytes d = some i) :
    byCustomerAndInvoiceName f d = "CTI-" ++ i ++ ".pdf" := by
  unfold byCustomerAndInvoiceName
  rw [hc, hi]
  apply sanitizeSpec_eq_self
  intro ch hch
  simp only [String.data_append, List.mem_append] at hch
  rcases hch with ((h1 | h1) | h1)
  · have h1' : ch ∈ ['C', 'T', 'I', '-'] := h1
    fin_cases h1' <;> decide
  · exact tokenChar_specAllowed ((extract_invoice_props hi).2 ch h1)
  · have h1' : ch ∈ ['.', 'p', 'd', 'f'] := h1
    fin_cases h1' <;> decide

/-! ## Claim C1: sanitize_name retention set -/

/-- C1, counterexample: the claim says spaces and periods are retained by
`sanitize_name`; the code strips them, as "a b.c" shows. -/
theorem C1_sanitize_counterexample :
    sanitize_name "a b.c" = "abc" ∧
      (sanitize_name "a b.c" == "a b.c") = false := by
  decide

/-- C1, amended: `sanitize_name s` is `s` with exactly the characters
outside the allowed set removed, where the allowed set is alphanumerics,
hyphen and underscore (not space or period); every retained character is
legal on common filesystems and is neither a space nor a period. -/
theorem C1_sanitize_amended (s : String) :
    (sanitize_name s).data =
      s.data.filter (fun c => c.isAlphanum || c = '-' || c = '_')
    ∧ ∀ c ∈ (sanitize_name s).data, c ∉ illegalChars ∧ c ≠ ' ' ∧ c ≠ '.' := by
  refine ⟨sanitize_name_data s, ?_⟩
  intro c hc
  rw [sanitize_name_data] at hc
  have hp := (List.mem_filter.mp hc).2
  refine ⟨sanitizeAllowed_not_illegal hp, ?_, ?_⟩
  · intro he; subst he; exact absurd hp (by decide)
  · intro he; subst he; exact absurd hp (by decide)

/-- C1, witness for the amended theorem at the input "a b.c" and the
retained character 'a'. -/
theorem C1_sanitize_amended_witness :
    (sanitize_name "a b.c").data =
      "a b.c".data.filter (fun c => c.isAlphanum || c = '-' || c = '_')
    ∧ ('a' ∉ illegalChars ∧ 'a' ≠ ' ' ∧ 'a' ≠ '.') :=
  ⟨(C1_sanitize_amended "a b.c").1,
   (C1_sanitize_amended "a b.c").2 'a' (by decide)⟩

/-! ## Claim C2: fallback naming -/

/-- C2, counterexample: with no customer number found, the original
filename "my doc.txt" is not preserved verbatim; the code strips the
extension, sanitizes the stem and forces ".pdf". -/
theorem C2_fallback_counterexample :
    uploadFileName "my doc.txt" (.valid [some "hello"]) = "mydoc.pdf" ∧
      (uploadFileName "my doc.txt" (.valid [some "hello"]) == "my doc.txt") = false := by
  decide

/-- C2, amended: when extraction finds nothing, each handler names the
entry `sanitize_name(Path(filename or "file").stem) + ".pdf"` (the
sales-order handler additionally sanitizes the result), not the original
filename verbatim. -/
theorem C2_fallback_amended (f : String) (d : PdfDoc) :
    (extract_customer_number_from_pdf_bytes d = none →
      uploadFileName f d = fallbackName f)
    ∧ (extract_invoice_number_from_pdf_bytes d = none →
      uploadInvoiceName f d = fallbackName f)
    ∧ (extract_sales_order_details_from_pdf_bytes d = (none, none) →
      uploadSalesorderName f d = sanitize_name (fallbackName f))
    ∧ fallbackName f =
        sanitize_name (pathStem (if f.isEmpty then "file" else f)) ++ ".pdf" := by
  refine ⟨?_, ?_, ?_, rfl⟩
  · intro h
    have he : uploadFileName f d =
        if truthy (extract_customer_number_from_pdf_bytes d) then
          "CTI-" ++ (extract_customer_number_from_pdf_bytes d).getD "" ++ ".pdf"
        else fallbackName f := rfl
    rw [he, h]
    rfl
  · intro h
    have he : uploadInvoiceName f d =
        if truthy (extract_invoice_number_from_pdf_bytes d) then
          "CTI-" ++ (extract_invoice_number_from_pdf_bytes d).getD "" ++ ".pdf"
        else fallbackName f := rfl
    rw [he, h]
    rfl
  · intro h
    have he : uploadSalesorderName f d = sanitize_name (
        if truthy (extract_sales_order_details_from_pdf_bytes d).1 &&
            truthy (extract_sales_order_details_from_pdf_bytes d).2 then
          "CTI Sales Order " ++
            (extract_sales_order_details_from_pdf_bytes d).1.getD "" ++ " " ++
            (extract_sales_order_details_from_pdf_bytes d).2.getD "" ++ ".pdf"
        else if truthy (extract_sales_order_details_from_pdf_bytes d).1 then
          "CTI Sales Order " ++
            (extract_sales_order_details_from_pdf_bytes d).1.getD "" ++ ".pdf"
        else if truthy (extract_sales_order_details_from_pdf_bytes d).2 then
          "CTI Sales Order " ++
            (extract_sales_order_details_from_pdf_bytes d).2.getD "" ++ ".pdf"
        else fallbackName f) := rfl
    rw [he, h]
    rfl

/-- C2, witness for the amended theorem: a document with no labels and
filename "my doc.txt". -/
theorem C2_fallback_amended_witness :
    uploadFileName "my doc.txt" (.valid [some "hello"]) = fallbackName "my doc.txt" :=
  (C2_fallback_amended "my doc.txt" (.valid [some "hello"])).1 (by decide)

/-! ## Claim C3: the ByCustomerAndInvoice policy (modelled from the spec) -/

/-- C3: under the spec-modelled ByCustomerAndInvoice policy, a document
with both fields found is named `CTI-<customer>-<invoice>.pdf`, one with
exactly one field found is named `CTI-<customer>.pdf` or
`CTI-<invoice>.pdf`; in particular a document containing both
"Customer Number: ABC123" and "Invoice Number: 9988" yields
`CTI-ABC123-9988.pdf`, and with only the invoice label `CTI-9988.pdf`. -/
theorem C3_byCustomerAndInvoice :
    (∀ (f : String) (d : PdfDoc) (c i : String),
        extract_customer_number_from_pdf_bytes d = some c →
        extract_invoice_number_from_pdf_bytes d = some i →
        byCustomerAndInvoiceName f d = "CTI-" ++ c ++ "-" ++ i ++ ".pdf")
    ∧ (∀ (f : String) (d : PdfDoc) (c : String),
        extract_customer_number_from_pdf_bytes d = some c →
        extract_invoice_number_from_pdf_bytes d = none →
        byCustomerAndInvoiceName f d = "CTI-" ++ c ++ ".pdf")
    ∧ (∀ (f : String) (d : PdfDoc) (i : String),
        extract_customer_number_from_pdf_bytes d = none →
        extract_invoice_number_from_pdf_bytes d = some i →
        byCustomerAndInvoiceName f d = "CTI-" ++ i ++ ".pdf")
    ∧ byCustomerAndInvoiceName "x.pdf" c3DocBoth = "CTI-ABC123-9988.pdf"
    ∧ byCustomerAndInvoiceName "x.pdf" c3DocInv = "CTI-9988.pdf" := by
  refine ⟨fun f d c i hc hi => byCustInv_both hc hi,
          fun f d c hc hi => byCustInv_custOnly hc hi,
          fun f d i hc hi => byCustInv_invOnly hc hi, ?_, ?_⟩
  · decide
  · decide

/-- C3, witness: the both-fields rule applied to the concrete document
carrying "Customer Number: ABC123" and "Invoice Number: 9988". -/
theorem C3_byCustomerAndInvoice_witness :
    byCustomerAndInvoiceName "y.pdf" c3DocBoth =
      "CTI-" ++ "ABC123" ++ "-" ++ "9988" ++ ".pdf" :=
  C3_byCustomerAndInvoice.1 "y.pdf" c3DocBoth "ABC123" "9988" (by decide) (by decide)

/-! ## Claim C4: tier priority for the order number -/

/-- C4, counterexample: a bare SO token on an earlier line wins over an
"Order Number" label on a later line, so the label rule does not take
priority document-wide: a line matches the label rule with value "777",
yet the extracted order number is "SO123456", which no line's label rule
produced. -/
theorem C4_order_counterexample :
    linesOf [some "see SO123456 enclosed\nOrder Number: 777"] =
      ["see SO123456 enclosed", "Order Number: 777"]
    ∧ (extract_sales_order_details_from_pdf_bytes c4Doc).1 = some "SO123456"
    ∧ lineLabelValue "Order Number: 777" = some "777"
    ∧ (["see SO123456 enclosed", "Order Number: 777"].all
        (fun l => lineLabelValue l != some "SO123456")) = true := by
  decide

/-- C4, amended: the label rules take priority over the bare-token rule
only within each single line; across lines, the first line yielding any
per-line value (label or bare token) determines the order number, and
the whole-text bare-token fallback applies only when no line yielded
anything. -/
theorem C4_order_amended :
    (∀ pages, (extract_sales_order_details_from_pdf_bytes (.valid pages)).1 =
        oOr (firstSomeMap lineOrderValue (linesOf pages))
            (textOrderFallback (linesOf pages)))
    ∧ (∀ (line v : String),
        lineLabelValue line = some v → lineOrderValue line = some v) := by
  refine ⟨extract_so_fst, fun line v h => ?_⟩
  unfold lineOrderValue
  rw [h, oOr_some]

/-- C4, witness for the amended theorem: the label value of the line
"Order Number: 777" is its per-line order value. -/
theorem C4_order_amended_witness :
    lineOrderValue "Order Number: 777" = some "777" :=
  C4_order_amended.2 "Order Number: 777" "777" (by decide)

/-! ## Claim C5: ship-to extraction -/

/-- C5, counterexample: the code's label regex strips only "Ship To" (and
separators), not the optional "Name", so a "Ship To Name: Bob" line
yields "Name: Bob" where the claim promises "Bob". -/
theorem C5_ship_counterexample :
    (extract_sales_order_details_from_pdf_bytes
        (.valid [some "Ship To Name: Bob"])).2 = some "Name: Bob"
    ∧ ((extract_sales_order_details_from_pdf_bytes
        (.valid [some "Ship To Name: Bob"])).2 == some "Bob") = false := by
  decide

/-- C5, amended: the ship-to name comes from the first line matching
`\s*Ship\s*To\b[\s:]*` (the word "Name" is not part of the stripped
label): the stripped trailing text of that line if non-empty, otherwise
the next non-blank line, truncated from the first digit (with the
whitespace run before it) and stripped — as `shipScan` states.  The
claim's own example still holds: "Ship To", a blank line, then
"Acme Corp 123 Main St" yields "Acme Corp"; but "Ship To Name: Bob"
yields "Name: Bob". -/
theorem C5_ship_amended :
    (∀ pages, (extract_sales_order_details_from_pdf_bytes (.valid pages)).2 =
        shipScan (linesOf pages))
    ∧ (extract_sales_order_details_from_pdf_bytes
        (.valid [some "Ship To\n\nAcme Corp 123 Main St"])).2 = some "Acme Corp"
    ∧ (extract_sales_order_details_from_pdf_bytes
        (.valid [some "Ship To Name: Bob"])).2 = some "Name: Bob" :=
  ⟨extract_so_snd, by decide, by decide⟩

/-! ## Claim C6: the ByCustomer example -/

/-- C6, counterexample: the text "Customer Number: ABC1234" contains the
substring "Customer Number: ABC123" with no earlier label match, yet the
greedy capture extends over the following token character, naming the
file CTI-ABC1234.pdf instead of CTI-ABC123.pdf. -/
theorem C6_customer_counterexample :
    "Customer Number: ABC1234".data = "Customer Number: ABC123".data ++ ['4']
    ∧ uploadFileName "x.txt" (.valid [some "Customer Number: ABC1234"]) =
        "CTI-ABC1234.pdf"
    ∧ (uploadFileName "x.txt" (.valid [some "Customer Number: ABC1234"]) ==
        "CTI-ABC123.pdf") = false := by
  decide

/-- Helper: found-and-non-empty customer number fixes the handler name. -/
theorem uploadFileName_of_some {f : String} {d : PdfDoc} {v : String}
    (h : extract_customer_number_from_pdf_bytes d = some v)
    (hv : v.isEmpty = false) :
    uploadFileName f d = "CTI-" ++ v ++ ".pdf" := by
  have he : uploadFileName f d =
      if truthy (extract_customer_number_from_pdf_bytes d) then
        "CTI-" ++ (extract_customer_number_from_pdf_bytes d).getD "" ++ ".pdf"
      else fallbackName f := rfl
  rw [he, h]
  simp [truthy, hv]

/-- C6, amended: for every document whose single-page text is
`pre ++ "Customer Number: ABC123" ++ post`, where no customer-label
match starts inside `pre` and `post` does not begin with a letter, digit
or hyphen, the `/upload` handler names it CTI-ABC123.pdf. -/
theorem C6_customer_amended (f : String) (pre post : List Char)
    (hpre : ∀ i, i < pre.length →
      custMatchAt (List.drop i (pre ++ ("Customer Number: ABC123".data ++ post))) = none)
    (hpost : List.takeWhile isTokenChar post = []) :
    uploadFileName f
      (.valid [some (String.mk (pre ++ ("Customer Number: ABC123".data ++ post)))]) =
      "CTI-ABC123.pdf" := by
  rw [uploadFileName_of_some (extract_customer_mid pre post hpre hpost) (by decide)]
  decide

/-- C6, witness for the amended theorem at `pre = post = []`. -/
theorem C6_customer_amended_witness :
    uploadFileName "x.txt"
      (.valid [some (String.mk (([] : List Char) ++
        ("Customer Number: ABC123".data ++ ([] : List Char))))]) =
      "CTI-ABC123.pdf" :=
  C6_customer_amended "x.txt" [] []
    (fun i hi => absurd hi (Nat.not_lt_zero i)) rfl

/-! ## Claim C7: archive entry names are safe -/

/-- C7: for every batch under each of the three handlers, every archive
entry's filename is non-empty and contains none of the characters
`< > : " / \ | ? *` — including the customer/invoice names built from an
extracted field without sanitization, whose characters come from the
capture class `[A-Za-z0-9-]`. -/
theorem C7_entry_names_safe (batch : List (String × PdfDoc)) :
    (∀ e ∈ upload_files batch,
      e.1 ≠ "" ∧ ∀ c ∈ e.1.data, c ∉ illegalChars)
    ∧ (∀ e ∈ upload_files_invoice batch,
      e.1 ≠ "" ∧ ∀ c ∈ e.1.data, c ∉ illegalChars)
    ∧ (∀ e ∈ upload_salesorder_files batch,
      e.1 ≠ "" ∧ ∀ c ∈ e.1.data, c ∉ illegalChars) := by
  refine ⟨?_, ?_, ?_⟩
  · intro e he
    obtain ⟨fd, _, rfl⟩ := List.mem_map.mp he
    exact ⟨string_ne_empty_of_data (uploadFileName_props fd.1 fd.2).1,
      (uploadFileName_props fd.1 fd.2).2⟩
  · intro e he
    obtain ⟨fd, _, rfl⟩ := List.mem_map.mp he
    exact ⟨string_ne_empty_of_data (uploadInvoiceName_props fd.1 fd.2).1,
      (uploadInvoiceName_props fd.1 fd.2).2⟩
  · intro e he
    obtain ⟨fd, _, rfl⟩ := List.mem_map.mp he
    exact ⟨string_ne_empty_of_data (uploadSalesorderName_props fd.1 fd.2).1,
      (uploadSalesorderName_props fd.1 fd.2).2⟩

/-- C7, witness: the single-entry batch of one unreadable document; its
fallback entry is named "a.pdf", non-empty and with legal characters. -/
theorem C7_entry_names_safe_witness :
    ("a.pdf" : String) ≠ "" ∧ 'a' ∉ illegalChars :=
  ⟨((C7_entry_names_safe [("a.txt", PdfDoc.invalid)]).1
      ("a.pdf", PdfDoc.invalid) (by decide)).1,
   ((C7_entry_names_safe [("a.txt", PdfDoc.invalid)]).1
      ("a.pdf", PdfDoc.invalid) (by decide)).2 'a' (by decide)⟩

/-! ## Claim C8: unreadable documents degrade to the fallback -/

/-- C8: a document whose bytes cannot be opened yields not-found for
every field of every extractor (the functions are total, so nothing is
raised); the batch still produces exactly one entry per input, the
unreadable document's entry is named by the fallback rule, and every
other document is processed normally. -/
theorem C8_invalid_fallback (batch : List (String × PdfDoc)) (i : Nat) (f : String) :
    extract_customer_number_from_pdf_bytes .invalid = none
    ∧ extract_invoice_number_from_pdf_bytes .invalid = none
    ∧ extract_sales_order_details_from_pdf_bytes .invalid = (none, none)
    ∧ (upload_files batch).length = batch.length
    ∧ (batch[i]? = some (f, .invalid) →
        (upload_files batch)[i]? = some (fallbackName f, .invalid))
    ∧ (∀ (g : String) (d : PdfDoc), batch[i]? = some (g, d) →
        (upload_files batch)[i]? = some (uploadFileName g d, d)) := by
  refine ⟨rfl, rfl, rfl, by simp [upload_files], ?_, ?_⟩
  · intro h
    simp only [upload_files, List.getElem?_map, h, Option.map_some']
    rfl
  · intro g d h
    simp only [upload_files, List.getElem?_map, h, Option.map_some']

/-- C8, witness: a one-document batch whose document cannot be opened. -/
theorem C8_invalid_fallback_witness :
    (upload_files [("a;b.txt", PdfDoc.invalid)])[0]? =
      some (fallbackName "a;b.txt", PdfDoc.invalid) :=
  (C8_invalid_fallback [("a;b.txt", PdfDoc.invalid)] 0 "a;b.txt").2.2.2.2.1 rfl

/-! ## Claim C9: name collisions inside one batch -/

/-- C9, counterexample: two documents with the same customer number both
receive the name CTI-ABC123.pdf and both entries are written; no
disambiguation happens anywhere before the archive. -/
theorem C9_collision_counterexample :
    (upload_files c9Batch).map Prod.fst = ["CTI-ABC123.pdf", "CTI-ABC123.pdf"]
    ∧ ((upload_files c9Batch).map Prod.fst).count "CTI-ABC123.pdf" = 2 := by
  decide

/-- C9, amended: the orchestration preserves cardinality and order but
performs no deduplication: each entry's name depends only on its own
input document, so inputs that resolve to the same name yield archive
entries with identical names. -/
theorem C9_collision_amended (batch : List (String × PdfDoc)) (i : Nat) :
    (upload_files batch)[i]?.map Prod.fst =
      batch[i]?.map (fun fd => uploadFileName fd.1 fd.2)
    ∧ (upload_salesorder_files batch)[i]?.map Prod.fst =
        batch[i]?.map (fun fd => uploadSalesorderName fd.1 fd.2)
    ∧ (upload_files batch).length = batch.length
    ∧ (upload_salesorder_files batch).length = batch.length := by
  refine ⟨?_, ?_, by simp [upload_files], by simp [upload_salesorder_files]⟩
  · cases h : batch[i]? <;> simp [upload_files, List.getElem?_map, h]
  · cases h : batch[i]? <;> simp [upload_salesorder_files, List.getElem?_map, h]

/-! ## Claim C10: found fields and the empty string -/

/-- C10, counterexample: ship-to extraction returns `some ""` (found but
empty) when the candidate line starts with a digit, as in a "Ship To"
line followed by "123 Main St". -/
theorem C10_empty_counterexample :
    (extract_sales_order_details_from_pdf_bytes
      (.valid [some "Ship To\n123 Main St"])).2 = some "" := by
  decide

/-- C10, amended: the customer, invoice and order fields are either
not-found or a non-empty string (stated via `getD` with a non-empty
default, so the positive length asserts that a found value is never
empty); the ship-to field, however, can be the found empty string. -/
theorem C10_found_nonempty_amended (d : PdfDoc) :
    0 < ((extract_customer_number_from_pdf_bytes d).getD "x").length
    ∧ 0 < ((extract_invoice_number_from_pdf_bytes d).getD "x").length
    ∧ 0 < ((extract_sales_order_details_from_pdf_bytes d).1.getD "x").length
    ∧ (extract_sales_order_details_from_pdf_bytes
        (.valid [some "Ship To\n123 Main St"])).2 = some "" := by
  refine ⟨?_, ?_, ?_, by decide⟩
  · cases hx : extract_customer_number_from_pdf_bytes d with
    | none => decide
    | some v =>
      simp only [Option.getD_some]
      exact List.length_pos.mpr (extract_customer_props hx).1
  · cases hx : extract_invoice_number_from_pdf_bytes d with
    | none => decide
    | some v =>
      simp only [Option.getD_some]
      exact List.length_pos.mpr (extract_invoice_props hx).1
  · cases hx : (extract_sales_order_details_from_pdf_bytes d).1 with
    | none => decide
    | some v =>
      simp only [Option.getD_some]
      exact List.length_pos.mpr (extract_so_order_ne_nil hx)
